import Mathlib

/-!
Verification of the protocol-extractor scripts
(`graph-node/subgraph-writer/protocol-extractor/{events.py, extractor.py}`).

The Python data are JSON documents.  An ABI entry is a JSON object that may
carry the keys `type`, `name` and `inputs`; the code only ever reads the
`type` string of each element of `inputs`, so an entry is embedded as a record
of three optional fields, `inputs` being the list of its input type strings.
A missing key read with `d[k]` raises `KeyError`; reads with `d.get(k)` yield
`None`.  Fallible Python evaluation is embedded in `Except Unit`.
-/

namespace ProtocolExtractor

/-- An ABI entry (or a required event from the config): the `type`, `name`
and `inputs` JSON keys, each possibly absent; `inputs` is kept as the list of
the declared input type strings, which is all the extractor reads of it. -/
structure AbiEntry where
  ty : Option String
  name : Option String
  inputs : Option (List String)
deriving DecidableEq, Repr

/-- Python `d[k]`: a missing key raises (`KeyError`). -/
def dictGet {α : Type} : Option α → Except Unit α
  | some a => .ok a
  | none => .error ()

/-- `only_events(abi)`: `filter(lambda x: x.get('type') == 'event', abi)`. -/
def only_events (abi : List AbiEntry) : List AbiEntry :=
  abi.filter (fun e => decide (e.ty = some "event"))

/-- Number of occurrences of type `t` in an input-type list: the content of
the `defaultdict(int)` counters built inside `similar_event_exists`. -/
def countType (ts : List String) (t : String) : Nat :=
  (ts.filter (fun s => decide (s = t))).length

/-- The inner `for i in i_types_count: if i_types_count[i] > j_types_count[i]:
break / else: ...` of `similar_event_exists`: every type occurring in the
requirement's inputs must occur at least as often in the candidate's inputs
(a `defaultdict` lookup of an absent type yields 0).  Iterating over the
distinct keys of the counter and over the list itself test the same thing. -/
def typesSat (req cand : List String) : Bool :=
  req.all (fun t => decide (countType req t ≤ countType cand t))

/-- Python `s.startswith(pre)`: `pre` is a string prefix of `s`.  Stated on
the underlying character lists so that it evaluates by structural
recursion. -/
def strStartsWith (s pre : String) : Bool :=
  pre.data.isPrefixOf s.data

/-- `similar_event_exists(event, events_list)` from `events.py`: scan the
candidates in order; skip a candidate whose name does not start with the
requirement's name; otherwise compare per-type input counts and return the
candidate's name on success; `None` when the scan is exhausted.  Key reads
`maybe_event['name']`, `event['name']`, `event['inputs']`,
`maybe_event['inputs']` happen in this order and raise on a missing key. -/
def similar_event_exists (event : AbiEntry) : List AbiEntry → Except Unit (Option String)
  | [] => .ok none
  | me :: rest =>
    match dictGet me.name with
    | .error e => .error e
    | .ok mn =>
      match dictGet event.name with
      | .error e => .error e
      | .ok en =>
        if strStartsWith mn en then
          match dictGet event.inputs with
          | .error e => .error e
          | .ok ei =>
            match dictGet me.inputs with
            | .error e => .error e
            | .ok mi =>
              if typesSat ei mi then .ok (some mn)
              else similar_event_exists event rest
        else similar_event_exists event rest

/-- The matching condition of the claim, as a predicate on one candidate:
its name extends the requirement's name `en` and its per-type input counts
dominate those of the requirement's input types `ei`. -/
def candPred (en : String) (ei : List String) (e : AbiEntry) : Bool :=
  strStartsWith (e.name.getD "") en && typesSat ei (e.inputs.getD [])

/-- On inputs whose relevant keys are all present, `similar_event_exists`
returns the name of the first candidate satisfying `candPred`. -/
theorem similar_spec (event : AbiEntry) (en : String) (ei : List String)
    (l : List AbiEntry)
    (h1 : event.name = some en) (h2 : event.inputs = some ei)
    (hg : ∀ e ∈ l, e.name ≠ none ∧ e.inputs ≠ none) :
    similar_event_exists event l =
      .ok ((l.find? (candPred en ei)).map (fun e => e.name.getD "")) := by
  induction l with
  | nil => rfl
  | cons me rest ih =>
    obtain ⟨hn, hi⟩ := hg me (List.mem_cons_self _ _)
    obtain ⟨mn, hmn⟩ := Option.ne_none_iff_exists'.mp hn
    obtain ⟨mi, hmi⟩ := Option.ne_none_iff_exists'.mp hi
    have ih' := ih (fun e he => hg e (List.mem_cons_of_mem _ he))
    simp only [similar_event_exists, h1, h2, hmn, hmi, dictGet, List.find?,
      candPred, Option.getD_some]
    by_cases hpre : strStartsWith mn en
    · simp only [hpre, if_true, Bool.true_and]
      by_cases hsat : typesSat ei mi
      · simp [hsat, hmn]
      · simp [hsat, ih', hmn]
    · simp only [hpre, if_false, Bool.false_and]
      simpa [hmn] using ih'

/-! ### `abi_from_str`: normalization by sorting

`abi_from_str` parses a JSON string and sorts the entries with
`sorted(abi, key=lambda x: x.get('name') or x.get('type'))`.  Parsing is the
passage to the `List AbiEntry` representation; the sorting stage is embedded
here.  The sort key is `name` when that key is present and truthy (a
non-empty string), else the value of `type` (possibly `None`).  CPython's
`sorted` is a stable sort; comparing `None` with anything (including `None`)
raises `TypeError`, and for a list of length at least two every element's key
takes part in at least one comparison, while a list of length at most one is
returned without any comparison.  This is embedded as a stable insertion
sort in `Except Unit`, whose comparisons fail exactly on a `none` key. -/

/-- The Python sort key `x.get('name') or x.get('type')`: `name` when present
and non-empty, else the `type` value. -/
def keyOf (e : AbiEntry) : Option String :=
  match e.name with
  | some s => if s = "" then e.ty else some s
  | none => e.ty

/-- Lexicographic comparison of character lists by code point: Python's
string order. -/
def charListLe : List Char → List Char → Bool
  | [], _ => true
  | _ :: _, [] => false
  | a :: as, b :: bs =>
    if a.toNat < b.toNat then true
    else if b.toNat < a.toNat then false
    else charListLe as bs

/-- Python `a <= b` on strings. -/
def strLe (a b : String) : Bool :=
  charListLe a.data b.data

theorem charListLe_refl (l : List Char) : charListLe l l = true := by
  induction l with
  | nil => rfl
  | cons a as ih => simp [charListLe, ih]

theorem charListLe_total (x y : List Char) :
    charListLe x y = true ∨ charListLe y x = true := by
  induction x generalizing y with
  | nil => exact Or.inl rfl
  | cons a as ih =>
    cases y with
    | nil => exact Or.inr rfl
    | cons b bs =>
      by_cases hab : a.toNat < b.toNat
      · exact Or.inl (by simp [charListLe, hab])
      · by_cases hba : b.toNat < a.toNat
        · exact Or.inr (by simp [charListLe, hba])
        · rcases ih bs with h | h
          · exact Or.inl (by simp [charListLe, hab, hba, h])
          · exact Or.inr (by simp [charListLe, hab, hba, h])

theorem charListLe_trans (x y z : List Char)
    (h1 : charListLe x y = true) (h2 : charListLe y z = true) :
    charListLe x z = true := by
  induction x generalizing y z with
  | nil => rfl
  | cons a as ih =>
    cases y with
    | nil => simp [charListLe] at h1
    | cons b bs =>
      cases z with
      | nil => simp [charListLe] at h2
      | cons c cs =>
        simp only [charListLe] at h1 h2 ⊢
        by_cases hab : a.toNat < b.toNat
        · by_cases hbc : b.toNat < c.toNat
          · simp [show a.toNat < c.toNat by omega]
          · by_cases hcb : c.toNat < b.toNat
            · simp [hbc, hcb] at h2
            · simp [show a.toNat < c.toNat by omega]
        · by_cases hba : b.toNat < a.toNat
          · simp [hab, hba] at h1
          · by_cases hbc : b.toNat < c.toNat
            · simp [show a.toNat < c.toNat by omega]
            · by_cases hcb : c.toNat < b.toNat
              · simp [hbc, hcb] at h2
              · simp only [hab, hba, if_false] at h1
                simp only [hbc, hcb, if_false] at h2
                simp only [show ¬ a.toNat < c.toNat by omega,
                  show ¬ c.toNat < a.toNat by omega, if_false]
                exact ih bs cs h1 h2

/-- Total comparison on keys used in proofs; `none` is placed first.  On two
present keys it is the string order actually used by the code. -/
def keyLe : Option String → Option String → Bool
  | none, _ => true
  | some _, none => false
  | some a, some b => strLe a b

/-- The comparison the running code performs: comparing a missing (`None`)
key with anything raises `TypeError`. -/
def cmpLe : Option String → Option String → Except Unit Bool
  | some a, some b => .ok (strLe a b)
  | _, _ => .error ()

/-- One stable insertion step: `x` is placed before the first element whose
key is not smaller, raising if a performed comparison meets a missing key. -/
def insertE (x : AbiEntry) : List AbiEntry → Except Unit (List AbiEntry)
  | [] => .ok [x]
  | h :: t =>
    match cmpLe (keyOf x) (keyOf h) with
    | .error e => .error e
    | .ok le =>
      if le then .ok (x :: h :: t)
      else
        match insertE x t with
        | .error e => .error e
        | .ok t' => .ok (h :: t')

/-- The sorting stage of `abi_from_str`: a stable sort of the entries by
`keyOf`, failing exactly when CPython's `sorted` would raise `TypeError`. -/
def sortAbi : List AbiEntry → Except Unit (List AbiEntry)
  | [] => .ok []
  | x :: xs =>
    match sortAbi xs with
    | .error e => .error e
    | .ok s => insertE x s

/-- `abi_from_str` after parsing: normalization of an ABI. -/
def abi_from_str (abi : List AbiEntry) : Except Unit (List AbiEntry) :=
  sortAbi abi

/-- The ordering relation on entries induced by the code's sort key. -/
def keyRel (a b : AbiEntry) : Prop := keyLe (keyOf a) (keyOf b) = true

instance : DecidableRel keyRel := fun _ _ =>
  inferInstanceAs (Decidable (_ = true))

instance : IsTotal AbiEntry keyRel := by
  constructor
  intro a b
  unfold keyRel keyLe
  cases keyOf a with
  | none => simp
  | some x =>
    cases keyOf b with
    | none => simp
    | some y => exact charListLe_total x.data y.data

instance : IsTrans AbiEntry keyRel := by
  constructor
  intro a b c
  unfold keyRel keyLe
  cases keyOf a with
  | none => simp
  | some x =>
    cases keyOf b with
    | none =>
      cases keyOf c with
      | none => simp
      | some z => intro h; simp at h
    | some y =>
      cases keyOf c with
      | none => intro _ h; simp at h
      | some z => exact charListLe_trans x.data y.data z.data

/-- On entries that all have a present (non-`None`) sort key, one insertion
step agrees with `List.orderedInsert`. -/
theorem insertE_good (x : AbiEntry) (l : List AbiEntry)
    (hx : keyOf x ≠ none) (hl : ∀ e ∈ l, keyOf e ≠ none) :
    insertE x l = .ok (List.orderedInsert keyRel x l) := by
  induction l with
  | nil => rfl
  | cons h t ih =>
    obtain ⟨kx, hkx⟩ := Option.ne_none_iff_exists'.mp hx
    obtain ⟨kh, hkh⟩ := Option.ne_none_iff_exists'.mp (hl h (List.mem_cons_self _ _))
    have ih' := ih (fun e he => hl e (List.mem_cons_of_mem _ he))
    simp only [insertE, List.orderedInsert, hkx, hkh, cmpLe]
    by_cases hle : keyRel x h
    · have hd : strLe kx kh = true := by
        have h2 := hle
        unfold keyRel keyLe at h2
        rw [hkx, hkh] at h2
        exact h2
      rw [hd, if_pos rfl, if_pos hle]
    · have hd : strLe kx kh = false := by
        unfold keyRel keyLe at hle
        rw [hkx, hkh] at hle
        simpa using hle
      rw [hd, if_neg (by simp), if_neg hle, ih']

/-- On entries that all have a present sort key, `sortAbi` succeeds and
computes the stable insertion sort by `keyRel`. -/
theorem sortAbi_good (l : List AbiEntry) (hl : ∀ e ∈ l, keyOf e ≠ none) :
    sortAbi l = .ok (List.insertionSort keyRel l) := by
  induction l with
  | nil => rfl
  | cons x xs ih =>
    have hxs : ∀ e ∈ xs, keyOf e ≠ none := fun e he => hl e (List.mem_cons_of_mem _ he)
    have hsorted : ∀ e ∈ List.insertionSort keyRel xs, keyOf e ≠ none := by
      intro e he
      exact hxs e ((List.perm_insertionSort keyRel xs).mem_iff.mp he)
    simp only [sortAbi, ih hxs, List.insertionSort]
    exact insertE_good x _ (hl x (List.mem_cons_self _ _)) hsorted

/-- Comparing against a missing left key raises. -/
theorem cmpLe_none_left (y : Option String) : cmpLe none y = .error () := by
  cases y <;> rfl

/-- Comparing against a missing right key raises. -/
theorem cmpLe_none_right (x : Option String) : cmpLe x none = .error () := by
  cases x <;> rfl

/-- Inserting an entry with a missing key into a non-empty list raises. -/
theorem insertE_error_of_bad (x : AbiEntry) (h : AbiEntry) (t : List AbiEntry)
    (hx : keyOf x = none) : insertE x (h :: t) = .error () := by
  simp only [insertE, hx, cmpLe_none_left]

/-- Inserting anything into a list headed by an entry with a missing key
raises. -/
theorem insertE_error_of_bad_head (x : AbiEntry) (h : AbiEntry) (t : List AbiEntry)
    (hh : keyOf h = none) : insertE x (h :: t) = .error () := by
  simp only [insertE, hh, cmpLe_none_right]

/-- Sorting a list of at least two entries one of which has a missing sort
key raises: every such entry's key meets a comparison. -/
theorem sortAbi_error (l : List AbiEntry) (hlen : 2 ≤ l.length)
    (hbad : ∃ e ∈ l, keyOf e = none) : sortAbi l = .error () := by
  induction l with
  | nil => simp at hlen
  | cons x xs ih =>
    have hxs_ne : xs ≠ [] := by
      intro h
      rw [h] at hlen
      simp at hlen
    by_cases hxs : ∃ e ∈ xs, keyOf e = none
    · by_cases hlen2 : 2 ≤ xs.length
      · have := ih hlen2 hxs
        simp only [sortAbi, this]
      · obtain ⟨b, hb, hbbad⟩ := hxs
        have hlen1 : xs.length = 1 := by
          have := List.length_pos.mpr hxs_ne
          omega
        obtain ⟨c, hc⟩ := List.length_eq_one.mp hlen1
        subst hc
        have hbc : b = c := by simpa using hb
        subst hbc
        simp only [sortAbi, insertE, hbbad, cmpLe_none_right]
    · have hx : keyOf x = none := by
        obtain ⟨e, he, hebad⟩ := hbad
        rcases List.mem_cons.mp he with h | h
        · exact h ▸ hebad
        · exact absurd ⟨e, h, hebad⟩ hxs
      push_neg at hxs
      have hgood : ∀ e ∈ xs, keyOf e ≠ none := hxs
      have hsg := sortAbi_good xs hgood
      have hne : List.insertionSort keyRel xs ≠ [] := by
        intro h
        have := List.perm_insertionSort keyRel xs
        rw [h] at this
        exact hxs_ne this.nil_eq.symm
      simp only [sortAbi, hsg]
      cases hs : List.insertionSort keyRel xs with
      | nil => exact absurd hs hne
      | cons h t => exact insertE_error_of_bad x h t hx

/-- The subsequence of entries whose sort key is `k`. -/
def keyFilter (k : Option String) (l : List AbiEntry) : List AbiEntry :=
  l.filter (fun e => decide (keyOf e = k))

theorem keyLe_refl (k : Option String) : keyLe k k = true := by
  cases k with
  | none => rfl
  | some s => exact charListLe_refl s.data

/-- Inserting an entry of key `k` leaves it in front of all present entries
of key `k`: entries it passes over have strictly smaller keys. -/
theorem keyFilter_orderedInsert_pos (x : AbiEntry) (k : Option String)
    (hx : keyOf x = k) (l : List AbiEntry) :
    keyFilter k (List.orderedInsert keyRel x l) = x :: keyFilter k l := by
  induction l with
  | nil => simp [keyFilter, List.orderedInsert, hx]
  | cons h t ih =>
    by_cases hle : keyRel x h
    · rw [List.orderedInsert, if_pos hle]
      simp [keyFilter, hx]
    · have hhk : keyOf h ≠ k := by
        intro hk
        exact hle (by unfold keyRel; rw [hx, hk]; exact keyLe_refl k)
      rw [List.orderedInsert, if_neg hle]
      simp only [keyFilter, List.filter] at ih ⊢
      rw [decide_eq_false hhk]
      simpa [keyFilter] using ih

/-- Inserting an entry of a different key does not disturb the `k`-keyed
subsequence. -/
theorem keyFilter_orderedInsert_neg (x : AbiEntry) (k : Option String)
    (hx : keyOf x ≠ k) (l : List AbiEntry) :
    keyFilter k (List.orderedInsert keyRel x l) = keyFilter k l := by
  induction l with
  | nil => simp [keyFilter, List.orderedInsert, decide_eq_false hx]
  | cons h t ih =>
    by_cases hle : keyRel x h
    · rw [List.orderedInsert, if_pos hle]
      simp [keyFilter, decide_eq_false hx]
    · rw [List.orderedInsert, if_neg hle]
      simp only [keyFilter, List.filter] at ih ⊢
      cases hd : decide (keyOf h = k) <;> simp [ih]

/-- Stability of the code's sort: for every key value, the entries carrying
that key appear in the output in their original relative order. -/
theorem keyFilter_insertionSort (l : List AbiEntry) (k : Option String) :
    keyFilter k (List.insertionSort keyRel l) = keyFilter k l := by
  induction l with
  | nil => rfl
  | cons x xs ih =>
    rw [List.insertionSort]
    by_cases hx : keyOf x = k
    · rw [keyFilter_orderedInsert_pos x k hx, ih]
      simp [keyFilter, List.filter, decide_eq_true hx]
    · rw [keyFilter_orderedInsert_neg x k hx, ih]
      simp [keyFilter, List.filter, decide_eq_false hx]

/-! ### `extractor.py`: candidate assignment and config synthesis -/

/-- The string the extractor writes into fields to be filled by hand. -/
def TODO : String := "TODO: fill"

/-- A role specification from the config file: the `events` requirement list
and the `default_name`, the two keys `main` reads. -/
structure Contract where
  events : List AbiEntry
  default_name : String
deriving DecidableEq, Repr

/-- The record stored in `result[contract_name]` when a role is assigned. -/
structure Assigned where
  abi : List AbiEntry
  address : String
  default_name : String
deriving DecidableEq, Repr

/-- Python truthiness of one element of `similar_events`, as consumed by
`all(similar_events)`: `None` and the empty string are falsy. -/
def truthy : Option String → Bool
  | none => false
  | some s => !(s == "")

/-- The per-candidate test of the main loop: build
`[similar_event_exists(event, only_events(abi)) for event in contract['events']]`
and apply `all` (with Python truthiness). -/
def role_satisfied (contract : Contract) (abi : List AbiEntry) : Except Unit Bool :=
  match contract.events.mapM (fun e => similar_event_exists e (only_events abi)) with
  | .error e => .error e
  | .ok sims => .ok (sims.all truthy)

/-- The inner loop of `main` for one role: scan the candidate pool in order,
skip addresses in `used_addresses`, and at the first candidate passing
`all(similar_events)` — when the role is not yet in `result` — append the
assignment, mark the address used and `break`. -/
def assign_contract (cn : String) (c : Contract)
    (result : List (String × Assigned)) (used : List String) :
    List (String × List AbiEntry) → Except Unit (List (String × Assigned) × List String)
  | [] => .ok (result, used)
  | (address, abi) :: rest =>
    if address ∈ used then assign_contract cn c result used rest
    else
      match role_satisfied c abi with
      | .error e => .error e
      | .ok sat =>
        if sat then
          if (result.lookup cn).isNone then
            .ok (result ++ [(cn, ⟨abi, address, c.default_name⟩)], used ++ [address])
          else assign_contract cn c result used rest
        else assign_contract cn c result used rest

/-- The outer loop of `main` (lines 98-113): roles in their declared order,
threading `result` and `used_addresses` through the inner loop. -/
def main_assign (abis : List (String × List AbiEntry)) :
    List (String × Contract) → List (String × Assigned) → List String →
    Except Unit (List (String × Assigned) × List String)
  | [], result, used => .ok (result, used)
  | (cn, c) :: roles, result, used =>
    match assign_contract cn c result used abis with
    | .error e => .error e
    | .ok ru => main_assign abis roles ru.1 ru.2

/-- A value of the synthesized context dictionary.  `jsonAbi abi` stands for
the string `json.dumps(abi)`. -/
inductive ConfigVal where
  | bool (b : Bool)
  | str (s : String)
  | null
  | jsonAbi (abi : List AbiEntry)
deriving DecidableEq, Repr

/-- Python `dict.pop(k)` on an association list with pairwise distinct keys:
the entry keyed `k` is removed, the rest keep their order. -/
def dict_pop (k : String) (l : List (String × ConfigVal)) : List (String × ConfigVal) :=
  l.filter (fun p => !(p.1 == k))

/-- `get_config(contract_name, result)` from `extractor.py`.  The value of a
present role is a non-empty dict, hence truthy, so `if result.get(...)` is
the `lookup` being `some`. -/
def get_config (contract_name : String) (result : List (String × Assigned)) :
    List (String × ConfigVal) :=
  match result.lookup contract_name with
  | some r =>
    let config : List (String × ConfigVal) :=
      [(contract_name, .bool true),
       (contract_name ++ "_name", .str r.default_name),
       (contract_name ++ "_address", .str r.address),
       (contract_name ++ "_start_block", .str TODO),
       (contract_name ++ "_address_test", .str TODO),
       (contract_name ++ "_start_block_test", .str TODO),
       (contract_name ++ "_abi", .jsonAbi r.abi)]
    if contract_name = "resolver" then
      dict_pop (contract_name ++ "_start_block_test")
        (dict_pop (contract_name ++ "_address") config)
    else config
  | none =>
      [(contract_name, .bool false),
       (contract_name ++ "_name", .null),
       (contract_name ++ "_address", .null),
       (contract_name ++ "_start_block", .null),
       (contract_name ++ "_address_test", .null),
       (contract_name ++ "_start_block_test", .null),
       (contract_name ++ "_abi", .null)]

/-- The acceptance test of one pool candidate for one role, as the claim
describes it: the address is not yet consumed and the ABI passes the
whole-role check (with Python truthiness). -/
def candOk (c : Contract) (used : List String) (p : String × List AbiEntry) : Bool :=
  !(decide (p.1 ∈ used)) &&
    (match role_satisfied c p.2 with
     | .ok b => b
     | .error _ => false)

/-- When the inner loop returns without raising and the role is not yet
assigned, it has assigned exactly the first pool candidate accepted by
`candOk` — and nothing when no candidate is accepted. -/
theorem assign_contract_char (cn : String) (c : Contract)
    (result : List (String × Assigned)) (used : List String)
    (abis : List (String × List AbiEntry))
    (r' : List (String × Assigned)) (u' : List String)
    (hres : result.lookup cn = none)
    (h : assign_contract cn c result used abis = .ok (r', u')) :
    (∃ addr abi, abis.find? (candOk c used) = some (addr, abi) ∧
      r' = result ++ [(cn, ⟨abi, addr, c.default_name⟩)] ∧ u' = used ++ [addr]) ∨
    (abis.find? (candOk c used) = none ∧ r' = result ∧ u' = used) := by
  induction abis with
  | nil =>
    simp only [assign_contract, Except.ok.injEq, Prod.mk.injEq] at h
    exact Or.inr ⟨rfl, h.1.symm, h.2.symm⟩
  | cons p rest ih =>
    obtain ⟨address, abi⟩ := p
    by_cases haddr : address ∈ used
    · have hpred : candOk c used (address, abi) = false := by
        simp [candOk, haddr]
      rw [show assign_contract cn c result used ((address, abi) :: rest) =
        assign_contract cn c result used rest by
          simp [assign_contract, haddr]] at h
      rw [List.find?_cons_of_neg _ (by simp [hpred])]
      exact ih h
    · rw [show assign_contract cn c result used ((address, abi) :: rest) =
        (match role_satisfied c abi with
         | .error e => .error e
         | .ok sat =>
           if sat then
             if (result.lookup cn).isNone then
               .ok (result ++ [(cn, ⟨abi, address, c.default_name⟩)], used ++ [address])
             else assign_contract cn c result used rest
           else assign_contract cn c result used rest) by
          simp [assign_contract, haddr]] at h
      cases hrs : role_satisfied c abi with
      | error e => rw [hrs] at h; exact absurd h (by simp)
      | ok sat =>
        rw [hrs] at h
        cases sat with
        | true =>
          have hpred : candOk c used (address, abi) = true := by
            simp [candOk, haddr, hrs]
          rw [List.find?_cons_of_pos _ hpred]
          simp only [hres, Option.isNone_none, if_true, Except.ok.injEq,
            Prod.mk.injEq] at h
          exact Or.inl ⟨address, abi, rfl, h.1.symm, h.2.symm⟩
        | false =>
          have hpred : candOk c used (address, abi) = false := by
            simp [candOk, haddr, hrs]
          rw [List.find?_cons_of_neg _ (by simp [hpred])]
          simp only [Bool.false_eq_true, if_false] at h
          exact ih h

/-- A role name that `lookup` misses is not among the assigned names. -/
theorem lookup_none_not_mem {β : Type} (cn : String) (l : List (String × β))
    (h : l.lookup cn = none) : cn ∉ l.map Prod.fst := by
  induction l with
  | nil => simp
  | cons p t ih =>
    obtain ⟨k, v⟩ := p
    rw [List.lookup_cons] at h
    by_cases hk : cn = k
    · rw [hk] at h
      simp at h
    · simp only [beq_false_of_ne hk] at h
      simpa [hk] using ih h

/-- The inner loop keeps the assignment invariant: assigned role names stay
pairwise distinct, assigned addresses stay pairwise distinct, and every
assigned address is in the used set. -/
theorem assign_contract_inv (cn : String) (c : Contract)
    (result : List (String × Assigned)) (used : List String)
    (abis : List (String × List AbiEntry))
    (r' : List (String × Assigned)) (u' : List String)
    (h : assign_contract cn c result used abis = .ok (r', u'))
    (h1 : (result.map Prod.fst).Nodup)
    (h2 : (result.map (fun p => p.2.address)).Nodup)
    (h3 : ∀ a ∈ result.map (fun p => p.2.address), a ∈ used) :
    (r'.map Prod.fst).Nodup ∧ (r'.map (fun p => p.2.address)).Nodup ∧
      (∀ a ∈ r'.map (fun p => p.2.address), a ∈ u') := by
  induction abis with
  | nil =>
    simp only [assign_contract, Except.ok.injEq, Prod.mk.injEq] at h
    exact h.1 ▸ h.2 ▸ ⟨h1, h2, h3⟩
  | cons p rest ih =>
    obtain ⟨address, abi⟩ := p
    by_cases haddr : address ∈ used
    · rw [show assign_contract cn c result used ((address, abi) :: rest) =
        assign_contract cn c result used rest by
          simp [assign_contract, haddr]] at h
      exact ih h
    · rw [show assign_contract cn c result used ((address, abi) :: rest) =
        (match role_satisfied c abi with
         | .error e => .error e
         | .ok sat =>
           if sat then
             if (result.lookup cn).isNone then
               .ok (result ++ [(cn, ⟨abi, address, c.default_name⟩)], used ++ [address])
             else assign_contract cn c result used rest
           else assign_contract cn c result used rest) by
          simp [assign_contract, haddr]] at h
      cases hrs : role_satisfied c abi with
      | error e => rw [hrs] at h; exact absurd h (by simp)
      | ok sat =>
        rw [hrs] at h
        cases sat with
        | true =>
          cases hlk : (result.lookup cn).isNone with
          | false =>
            rw [hlk] at h
            simp only [Bool.false_eq_true, if_true, if_false] at h
            exact ih h
          | true =>
            rw [hlk] at h
            simp only [if_true, Except.ok.injEq, Prod.mk.injEq] at h
            obtain ⟨hr, hu⟩ := h
            subst hr hu
            refine ⟨?_, ?_, ?_⟩
            · rw [List.map_append]
              simp only [List.map_cons, List.map_nil]
              rw [List.nodup_append]
              refine ⟨h1, List.nodup_singleton _, ?_⟩
              intro a ha hb
              simp only [List.mem_singleton] at hb
              exact lookup_none_not_mem cn result
                (Option.isNone_iff_eq_none.mp hlk) (hb ▸ ha)
            · rw [List.map_append]
              simp only [List.map_cons, List.map_nil]
              rw [List.nodup_append]
              refine ⟨h2, List.nodup_singleton _, ?_⟩
              intro a ha hb
              simp only [List.mem_singleton] at hb
              exact haddr (h3 _ (hb ▸ ha))
            · intro a ha
              rw [List.map_append] at ha
              rcases List.mem_append.mp ha with ha | ha
              · exact List.mem_append_left _ (h3 _ ha)
              · simp only [List.map_cons, List.map_nil, List.mem_singleton] at ha
                subst ha
                exact List.mem_append_right _ (List.mem_singleton_self _)
        | false =>
          simp only [Bool.false_eq_true, if_false] at h
          exact ih h

/-- The outer loop keeps the assignment invariant through every role. -/
theorem main_assign_inv (abis : List (String × List AbiEntry))
    (roles : List (String × Contract))
    (result : List (String × Assigned)) (used : List String)
    (r' : List (String × Assigned)) (u' : List String)
    (h : main_assign abis roles result used = .ok (r', u'))
    (h1 : (result.map Prod.fst).Nodup)
    (h2 : (result.map (fun p => p.2.address)).Nodup)
    (h3 : ∀ a ∈ result.map (fun p => p.2.address), a ∈ used) :
    (r'.map Prod.fst).Nodup ∧ (r'.map (fun p => p.2.address)).Nodup ∧
      (∀ a ∈ r'.map (fun p => p.2.address), a ∈ u') := by
  induction roles generalizing result used with
  | nil =>
    simp only [main_assign, Except.ok.injEq, Prod.mk.injEq] at h
    exact h.1 ▸ h.2 ▸ ⟨h1, h2, h3⟩
  | cons p roles ih =>
    obtain ⟨cn, c⟩ := p
    rw [show main_assign abis ((cn, c) :: roles) result used =
      (match assign_contract cn c result used abis with
       | .error e => .error e
       | .ok ru => main_assign abis roles ru.1 ru.2) by
        simp [main_assign]] at h
    cases hac : assign_contract cn c result used abis with
    | error e => rw [hac] at h; exact absurd h (by simp)
    | ok ru =>
      rw [hac] at h
      obtain ⟨g1, g2, g3⟩ := assign_contract_inv cn c result used abis ru.1 ru.2
        (by rw [hac]) h1 h2 h3
      exact ih ru.1 ru.2 h g1 g2 g3

/-! ### Concrete example data used by witnesses and counterexamples -/

/-- A requirement event: `Transfer(address,address,uint256)`. -/
def evTransferReq : AbiEntry :=
  ⟨none, some "Transfer", some ["address", "address", "uint256"]⟩

/-- A candidate event `Approval(address,address,uint256)`. -/
def evApproval : AbiEntry :=
  ⟨some "event", some "Approval", some ["address", "address", "uint256"]⟩

/-- A candidate event `TransferSingle` with a superset of the per-type
counts of `evTransferReq`. -/
def evTransferSingle : AbiEntry :=
  ⟨some "event", some "TransferSingle",
    some ["address", "address", "address", "uint256", "uint256"]⟩

/-- A candidate event whose name is the empty string. -/
def evEmptyName : AbiEntry := ⟨some "event", some "", some []⟩

/-- A requirement event whose name is the empty string. -/
def reqEmptyName : AbiEntry := ⟨none, some "", some []⟩

/-- A role consisting of the single requirement `reqEmptyName`. -/
def roleEmpty : Contract := ⟨[reqEmptyName], "d"⟩

/-- A role consisting of the single requirement `evTransferReq`. -/
def roleTransfer : Contract := ⟨[evTransferReq], "d"⟩

/-- A requirement named `A` with no inputs. -/
def evReqA : AbiEntry := ⟨none, some "A", some []⟩

/-- A requirement named `A` with one `uint256` input. -/
def evReqA1 : AbiEntry := ⟨none, some "A", some ["uint256"]⟩

/-- A candidate named `X` (not extending `A`). -/
def evX : AbiEntry := ⟨some "event", some "X", some []⟩

/-- A candidate named `AB` (extending `A`) with no inputs. -/
def evAB : AbiEntry := ⟨some "event", some "AB", some []⟩

/-- An ABI entry lacking `name`, `type` and `inputs` alike. -/
def entryBare : AbiEntry := ⟨none, none, none⟩

/-- An entry with empty `name` and `type` `"z"`: its effective sort key is
`"z"`, not its name. -/
def entryEmptyNameZ : AbiEntry := ⟨some "z", some "", none⟩

/-- An entry named `"b"` with `type` `"a"`. -/
def entryNameB : AbiEntry := ⟨some "a", some "b", none⟩

/-- An entry that carries a `name` — the empty string — but no `type`: its
Python sort key `'' or None` is `None`. -/
def entryEmptyNameOnly : AbiEntry := ⟨none, some "", none⟩

/-! ### The claims -/

/-- Claim C1: for every event requirement (name plus ordered input-type
list) and candidate list, `similar_event_exists` returns the name of the
first candidate, in encounter order, whose name has the requirement's name
as a string prefix and whose per-type input counts dominate the
requirement's; `none` when no candidate qualifies.  Stated on inputs whose
`name`/`inputs` keys are present, the domain on which the scan completes. -/
theorem claim1_first_prefix_match (event : AbiEntry) (en : String)
    (ei : List String) (l : List AbiEntry)
    (h1 : event.name = some en) (h2 : event.inputs = some ei)
    (hg : ∀ e ∈ l, e.name ≠ none ∧ e.inputs ≠ none) :
    similar_event_exists event l =
      .ok ((l.find? (candPred en ei)).map (fun e => e.name.getD "")) :=
  similar_spec event en ei l h1 h2 hg

/-- Witness for C1 at `Transfer(address,address,uint256)` against
`[Approval, TransferSingle]`: the first qualifying candidate is returned. -/
theorem claim1_first_prefix_match_witness :
    similar_event_exists evTransferReq [evApproval, evTransferSingle] =
      .ok ((([evApproval, evTransferSingle]).find?
        (candPred "Transfer" ["address", "address", "uint256"])).map
          (fun e => e.name.getD "")) :=
  claim1_first_prefix_match evTransferReq "Transfer"
    ["address", "address", "uint256"] [evApproval, evTransferSingle]
    rfl rfl (by decide)

/-- Claim C4 counterexample: a requirement with no name-prefix candidate at
all (`A` against `[X]`) and a requirement with a name-prefix candidate that
fails the count test (`A(uint256)` against `[AB()]`) produce the very same
result, `Except.ok none` — the two cases are not signaled distinctly. -/
theorem claim4_counterexample :
    (strStartsWith (evX.name.getD "") "A" = false) ∧
    (strStartsWith (evAB.name.getD "") "A" = true) ∧
    similar_event_exists evReqA [evX] = .ok none ∧
    similar_event_exists evReqA1 [evAB] = .ok none ∧
    similar_event_exists evReqA [evX] = similar_event_exists evReqA1 [evAB] :=
  ⟨by decide, by decide, rfl, rfl, rfl⟩

/-- Claim C4 as amended: when a requirement is unmatched the matcher returns
the single signal `Except.ok none`, whether no name-prefix candidate exists
or some exists but fails the per-type count condition. -/
theorem claim4_unmatched_single_signal (event : AbiEntry) (en : String)
    (ei : List String) (l : List AbiEntry)
    (h1 : event.name = some en) (h2 : event.inputs = some ei)
    (hg : ∀ e ∈ l, e.name ≠ none ∧ e.inputs ≠ none)
    (hnone : l.find? (candPred en ei) = none) :
    similar_event_exists event l = .ok none := by
  rw [similar_spec event en ei l h1 h2 hg, hnone]
  rfl

/-- Witness for the amended C4 at `A(uint256)` against `[AB()]`. -/
theorem claim4_unmatched_single_signal_witness :
    similar_event_exists evReqA1 [evAB] = .ok none :=
  claim4_unmatched_single_signal evReqA1 "A" ["uint256"] [evAB]
    rfl rfl (by decide) (by decide)

/-- Claim C9: the matcher is partial at its public interface: once a
candidate's name extends the requirement's, a missing `inputs` key — on the
requirement or on the candidate — raises (`KeyError`) instead of being read
as an empty input list, and the branch is reachable. -/
theorem claim9_missing_inputs_raise (event me : AbiEntry)
    (rest : List AbiEntry) (en mn : String)
    (h1 : event.name = some en) (h2 : me.name = some mn)
    (hpre : strStartsWith mn en = true) :
    (event.inputs = none → similar_event_exists event (me :: rest) = .error ()) ∧
    (∀ ei, event.inputs = some ei → me.inputs = none →
      similar_event_exists event (me :: rest) = .error ()) := by
  constructor
  · intro hei
    simp [similar_event_exists, h1, h2, hpre, hei, dictGet]
  · intro ei hei hmi
    simp [similar_event_exists, h1, h2, hpre, hei, hmi, dictGet]

/-- Witness for C9: a candidate named `TransferBatch` without an `inputs`
key makes the matcher raise for the `Transfer` requirement. -/
theorem claim9_missing_inputs_raise_witness :
    similar_event_exists evTransferReq
      [AbiEntry.mk (some "event") (some "TransferBatch") none] = .error () :=
  (claim9_missing_inputs_raise evTransferReq
      (AbiEntry.mk (some "event") (some "TransferBatch") none) [] "Transfer"
      "TransferBatch" rfl rfl (by decide)).2
    ["address", "address", "uint256"] rfl rfl

/-- Claim C2 counterexample: a role whose single requirement is the
empty-named event and a pool whose single candidate carries the empty-named
event.  The matcher finds a match for every requirement of the role
(`similar_event_exists` returns a name), so the candidate satisfies the role
in the claim's sense, yet `all(similar_events)` treats the returned empty
string as falsy and the role is left unassigned. -/
theorem claim2_counterexample :
    similar_event_exists reqEmptyName (only_events [evEmptyName]) = .ok (some "") ∧
    main_assign [("a1", [evEmptyName])] [("role", roleEmpty)] [] [] = .ok ([], []) :=
  ⟨rfl, rfl⟩

/-- Claim C2 as amended: the resolver iterates roles in declared order
(first conjunct: one outer step runs the inner loop and threads its state to
the remaining roles, with no backtracking); for each role not yet assigned,
the inner loop assigns the first candidate, in pool order and skipping
consumed addresses, whose ABI passes the whole-role check in which every
requirement must be matched *with a non-empty returned name* (Python
truthiness of `all`), marking its address consumed; if no candidate
qualifies, the role receives no assignment (second conjunct). -/
theorem claim2_first_fit_assignment :
    (∀ (abis : List (String × List AbiEntry)) (cn : String) (c : Contract)
      (roles : List (String × Contract)) (result : List (String × Assigned))
      (used : List String),
      main_assign abis ((cn, c) :: roles) result used =
        (match assign_contract cn c result used abis with
         | .error e => .error e
         | .ok ru => main_assign abis roles ru.1 ru.2)) ∧
    (∀ (cn : String) (c : Contract) (result : List (String × Assigned))
      (used : List String) (abis : List (String × List AbiEntry))
      (r' : List (String × Assigned)) (u' : List String),
      result.lookup cn = none →
      assign_contract cn c result used abis = .ok (r', u') →
      (∃ addr abi, abis.find? (candOk c used) = some (addr, abi) ∧
        r' = result ++ [(cn, ⟨abi, addr, c.default_name⟩)] ∧
        u' = used ++ [addr]) ∨
      (abis.find? (candOk c used) = none ∧ r' = result ∧ u' = used)) := by
  constructor
  · intro abis cn c roles result used
    rfl
  · intro cn c result used abis r' u' hres h
    exact assign_contract_char cn c result used abis r' u' hres h

/-- Witness for the amended C2: for the `Transfer` role over the pool
`[("a1", [Approval]), ("a2", [TransferSingle])]` the inner loop assigns the
first qualifying candidate `a2`. -/
theorem claim2_first_fit_assignment_witness :
    (∃ addr abi,
      ([("a1", [evApproval]), ("a2", [evTransferSingle])] :
          List (String × List AbiEntry)).find? (candOk roleTransfer []) =
        some (addr, abi) ∧
      [("r", Assigned.mk [evTransferSingle] "a2" "d")] =
        ([] : List (String × Assigned)) ++
          [("r", ⟨abi, addr, roleTransfer.default_name⟩)] ∧
      ["a2"] = ([] : List String) ++ [addr]) ∨
    (([("a1", [evApproval]), ("a2", [evTransferSingle])] :
        List (String × List AbiEntry)).find? (candOk roleTransfer []) = none ∧
      [("r", Assigned.mk [evTransferSingle] "a2" "d")] =
        ([] : List (String × Assigned)) ∧
      ["a2"] = ([] : List String)) :=
  claim2_first_fit_assignment.2 "r" roleTransfer [] []
    [("a1", [evApproval]), ("a2", [evTransferSingle])]
    [("r", Assigned.mk [evTransferSingle] "a2" "d")] ["a2"] rfl rfl

/-- Claim C3: the assignment the resolver builds maps each role name at most
once and never assigns one candidate address to two distinct roles; the
invariant is kept through the incremental construction (it holds for the
state after every prefix of the roles, each being a run of `main_assign`
from the empty state on that prefix). -/
theorem claim3_no_duplicate_assignments (abis : List (String × List AbiEntry))
    (roles : List (String × Contract))
    (r : List (String × Assigned)) (u : List String)
    (h : main_assign abis roles [] [] = .ok (r, u)) :
    (r.map Prod.fst).Nodup ∧ (r.map (fun p => p.2.address)).Nodup := by
  obtain ⟨g1, g2, _⟩ := main_assign_inv abis roles [] [] r u h
    (by simp) (by simp) (by simp)
  exact ⟨g1, g2⟩

/-- Witness for C3: two roles competing for the single candidate `a2`; only
the first gets it, and the produced maps are duplicate-free. -/
theorem claim3_no_duplicate_assignments_witness :
    (([("r1", Assigned.mk [evTransferSingle] "a2" "d")] :
        List (String × Assigned)).map Prod.fst).Nodup ∧
    (([("r1", Assigned.mk [evTransferSingle] "a2" "d")] :
        List (String × Assigned)).map (fun p => p.2.address)).Nodup :=
  claim3_no_duplicate_assignments [("a2", [evTransferSingle])]
    [("r1", roleTransfer), ("r2", roleTransfer)]
    [("r1", Assigned.mk [evTransferSingle] "a2" "d")] ["a2"] rfl

/-- Claim C8: a role whose requirement list is empty is satisfied by every
candidate (`all([])` is vacuously true), so the inner loop assigns it the
first candidate of the pool whose address is not yet consumed, whatever that
candidate's ABI contains. -/
theorem claim8_empty_role_takes_first_free (cn : String) (c : Contract)
    (result : List (String × Assigned)) (used : List String)
    (abis : List (String × List AbiEntry)) (addr : String)
    (abi : List AbiEntry)
    (hev : c.events = [])
    (hres : result.lookup cn = none)
    (hfind : abis.find? (fun p => !(decide (p.1 ∈ used))) = some (addr, abi)) :
    assign_contract cn c result used abis =
      .ok (result ++ [(cn, ⟨abi, addr, c.default_name⟩)], used ++ [addr]) := by
  induction abis with
  | nil => simp at hfind
  | cons p rest ih =>
    obtain ⟨address, abi'⟩ := p
    by_cases haddr : address ∈ used
    · rw [List.find?_cons_of_neg _ (by simp [haddr])] at hfind
      rw [show assign_contract cn c result used ((address, abi') :: rest) =
        assign_contract cn c result used rest by
          simp [assign_contract, haddr]]
      exact ih hfind
    · rw [List.find?_cons_of_pos _ (by simp [haddr])] at hfind
      simp only [Option.some.injEq, Prod.mk.injEq] at hfind
      obtain ⟨ha, hb⟩ := hfind
      have hsat : role_satisfied c abi' = .ok true := by
        unfold role_satisfied
        rw [hev]
        rfl
      rw [show assign_contract cn c result used ((address, abi') :: rest) =
        (match role_satisfied c abi' with
         | .error e => .error e
         | .ok sat =>
           if sat then
             if (result.lookup cn).isNone then
               .ok (result ++ [(cn, ⟨abi', address, c.default_name⟩)],
                 used ++ [address])
             else assign_contract cn c result used rest
           else assign_contract cn c result used rest) by
          simp [assign_contract, haddr]]
      rw [hsat]
      simp only [if_true, hres, Option.isNone_none]
      rw [ha, hb]

/-- Witness for C8: a role with no requirements takes the first unused pool
candidate even though that candidate's ABI holds no events at all. -/
theorem claim8_empty_role_takes_first_free_witness :
    assign_contract "any" (Contract.mk [] "n") [] ["a1"]
      [("a1", [evApproval]), ("a2", [entryBare])] =
      .ok ([("any", ⟨[entryBare], "a2", "n"⟩)], ["a1", "a2"]) :=
  claim8_empty_role_takes_first_free "any" (Contract.mk [] "n") [] ["a1"]
    [("a1", [evApproval]), ("a2", [entryBare])] "a2" [entryBare]
    rfl rfl (by decide)

/-- Claim C5 counterexample: an ABI consisting of exactly one entry that
lacks both `name` and `type` is normalized without failure — a list of
length one is sorted without performing any key comparison, so the `None`
key never meets the comparison that would raise, and the malformed entry is
returned unchanged. -/
theorem claim5_counterexample :
    entryBare.name = none ∧ entryBare.ty = none ∧
    abi_from_str [entryBare] = .ok [entryBare] :=
  ⟨rfl, rfl, rfl⟩

/-- Claim C5 as amended: for every raw ABI of at least two entries
containing an entry that lacks both `name` and `type`, normalization fails
(the `TypeError` of comparing `None`, aborting the run with no output);
a single-entry ABI is returned unchanged even when its sole entry is
malformed. -/
theorem claim5_malformed_abi_aborts (l : List AbiEntry)
    (hlen : 2 ≤ l.length)
    (hbad : ∃ e ∈ l, e.name = none ∧ e.ty = none) :
    abi_from_str l = .error () := by
  apply sortAbi_error l hlen
  obtain ⟨e, he, h1, h2⟩ := hbad
  refine ⟨e, he, ?_⟩
  rw [keyOf, h1, h2]

/-- Witness for the amended C5: the bare entry next to a well-formed one
makes normalization fail. -/
theorem claim5_malformed_abi_aborts_witness :
    abi_from_str [entryBare, evApproval] = .error () :=
  claim5_malformed_abi_aborts [entryBare, evApproval] (by decide)
    ⟨entryBare, by decide, rfl, rfl⟩

/-- The ordering key the claim describes: the entry's `name` whenever that
key is present, else its `type`. -/
def claimKey (e : AbiEntry) : Option String :=
  match e.name with
  | some s => some s
  | none => e.ty

/-- Claim C6 counterexample: two entries, each carrying a `name`, where one
`name` is the empty string.  The code keys the empty-named entry by its
`type` `"z"` and sorts it last, whereas ordering ascending by `name` when
present (the claim's key, `claimKey`) would put the empty name first: the
output is not ordered by the claim's key.  Moreover an entry carrying only
an empty `name` satisfies the claim's hypothesis yet makes normalization
fail outright (its effective key is `None`), last conjunct. -/
theorem claim6_counterexample :
    entryEmptyNameZ.name = some "" ∧ entryNameB.name = some "b" ∧
    abi_from_str [entryEmptyNameZ, entryNameB] =
      .ok [entryNameB, entryEmptyNameZ] ∧
    claimKey entryNameB = some "b" ∧
    claimKey entryEmptyNameZ = some "" ∧
    keyLe (some "b") (some "") = false ∧
    entryEmptyNameOnly.name = some "" ∧
    abi_from_str [entryEmptyNameOnly, entryNameB] = .error () :=
  ⟨rfl, rfl, rfl, rfl, rfl, by decide, rfl, rfl⟩

/-- Claim C6 as amended: for every raw ABI in which each entry has a sort
key — a non-empty `name`, or failing that a `type` — normalization succeeds
and returns exactly the same entries, none added, removed or mutated (a
permutation), ordered ascending by the key `name`-when-present-and-non-empty-
else-`type` (`keyRel`), ties broken by original relative order (for every
key value the entries carrying it keep their relative order), and
normalizing the result again returns it unchanged (idempotence). -/
theorem claim6_normalization_sorts (l : List AbiEntry)
    (hg : ∀ e ∈ l, keyOf e ≠ none) :
    ∃ r, abi_from_str l = .ok r ∧ r.Perm l ∧ List.Pairwise keyRel r ∧
      (∀ k, keyFilter k r = keyFilter k l) ∧ abi_from_str r = .ok r := by
  refine ⟨List.insertionSort keyRel l, sortAbi_good l hg,
    List.perm_insertionSort keyRel l, List.sorted_insertionSort keyRel l,
    fun k => keyFilter_insertionSort l k, ?_⟩
  have hgr : ∀ e ∈ List.insertionSort keyRel l, keyOf e ≠ none := fun e he =>
    hg e ((List.perm_insertionSort keyRel l).mem_iff.mp he)
  rw [abi_from_str, sortAbi_good _ hgr,
    List.Sorted.insertionSort_eq (List.sorted_insertionSort keyRel l)]

/-- Witness for the amended C6 on a three-entry ABI with all keys present. -/
theorem claim6_normalization_sorts_witness :
    ∃ r, abi_from_str [entryNameB, evApproval, entryEmptyNameZ] = .ok r ∧
      r.Perm [entryNameB, evApproval, entryEmptyNameZ] ∧
      List.Pairwise keyRel r ∧
      (∀ k, keyFilter k r = keyFilter k [entryNameB, evApproval, entryEmptyNameZ]) ∧
      abi_from_str r = .ok r :=
  claim6_normalization_sorts [entryNameB, evApproval, entryEmptyNameZ]
    (by decide)

/-- Claim C7: a role absent from `result` is synthesized with its presence
flag `False` and each derived key present with an explicit `None` value —
no key is omitted and nothing fails. -/
theorem claim7_unassigned_role_nulls (cn : String)
    (result : List (String × Assigned))
    (h : result.lookup cn = none) :
    get_config cn result =
      [(cn, .bool false), (cn ++ "_name", .null), (cn ++ "_address", .null),
       (cn ++ "_start_block", .null), (cn ++ "_address_test", .null),
       (cn ++ "_start_block_test", .null), (cn ++ "_abi", .null)] := by
  unfold get_config
  rw [h]

/-- Witness for C7 at the role name `registry` and an empty result map. -/
theorem claim7_unassigned_role_nulls_witness :
    get_config "registry" [] =
      [("registry", .bool false), ("registry" ++ "_name", .null),
       ("registry" ++ "_address", .null), ("registry" ++ "_start_block", .null),
       ("registry" ++ "_address_test", .null),
       ("registry" ++ "_start_block_test", .null),
       ("registry" ++ "_abi", .null)] :=
  claim7_unassigned_role_nulls "registry" [] rfl

/-- Claim C10: an assigned `resolver` role is synthesized without its
`resolver_address` and `resolver_start_block_test` keys, the remaining five
keys as for any assigned role; every other assigned role emits all seven
keys. -/
theorem claim10_resolver_key_set :
    (∀ (result : List (String × Assigned)) (r : Assigned),
      result.lookup "resolver" = some r →
      get_config "resolver" result =
        [("resolver", .bool true), ("resolver" ++ "_name", .str r.default_name),
         ("resolver" ++ "_start_block", .str TODO),
         ("resolver" ++ "_address_test", .str TODO),
         ("resolver" ++ "_abi", .jsonAbi r.abi)]) ∧
    (∀ (cn : String) (result : List (String × Assigned)) (r : Assigned),
      cn ≠ "resolver" → result.lookup cn = some r →
      get_config cn result =
        [(cn, .bool true), (cn ++ "_name", .str r.default_name),
         (cn ++ "_address", .str r.address), (cn ++ "_start_block", .str TODO),
         (cn ++ "_address_test", .str TODO),
         (cn ++ "_start_block_test", .str TODO),
         (cn ++ "_abi", .jsonAbi r.abi)]) := by
  constructor
  · intro result r h
    unfold get_config
    rw [h]
    rfl
  · intro cn result r hne h
    unfold get_config
    rw [h]
    simp only [if_neg hne]

/-- Witness for C10: one assigned resolver (five keys) and one assigned
registry (seven keys). -/
theorem claim10_resolver_key_set_witness :
    get_config "resolver" [("resolver", Assigned.mk [evApproval] "a1" "rn")] =
      [("resolver", .bool true), ("resolver" ++ "_name", .str "rn"),
       ("resolver" ++ "_start_block", .str TODO),
       ("resolver" ++ "_address_test", .str TODO),
       ("resolver" ++ "_abi", .jsonAbi [evApproval])] ∧
    get_config "registry" [("registry", Assigned.mk [evApproval] "a2" "gn")] =
      [("registry", .bool true), ("registry" ++ "_name", .str "gn"),
       ("registry" ++ "_address", .str "a2"),
       ("registry" ++ "_start_block", .str TODO),
       ("registry" ++ "_address_test", .str TODO),
       ("registry" ++ "_start_block_test", .str TODO),
       ("registry" ++ "_abi", .jsonAbi [evApproval])] :=
  ⟨claim10_resolver_key_set.1 [("resolver", Assigned.mk [evApproval] "a1" "rn")]
      (Assigned.mk [evApproval] "a1" "rn") rfl,
    claim10_resolver_key_set.2 "registry"
      [("registry", Assigned.mk [evApproval] "a2" "gn")]
      (Assigned.mk [evApproval] "a2" "gn") (by decide) rfl⟩

end ProtocolExtractor
